import Mathlib

/-!
Verification of the color-extractor core (`src/core/ColorExtractor.ts`,
`src/core/Palette.ts`, `src/core/ImageDecoder.ts`) against its
natural-language specification.

JavaScript floating-point numbers are modelled as real numbers; packed
24-bit colors as natural numbers; the `Map<string, number[]>` spatial grid
as a function from integer bucket triples to index lists (the string key
`"l,a,b"` is in bijection with the triple, so map-key equality coincides
with triple equality); the bounded Lab conversion `Map` cache as an
association list threaded through the computation.  Asynchronous batching
(`setImmediate` yields in `initialize`) only suspends the computation and
never changes any value, so it has no counterpart in the model.
-/

open scoped Classical

/-- CIE Lab color triple, from `LabColor` in `src/types/index.ts`. -/
structure LabColor where
  L : ℝ
  a : ℝ
  b : ℝ

/-- sRGB transfer function, from `ColorExtractor.rgbToSrgb`
(`SRGB_THRESHOLD = 0.03928`, `SRGB_FACTOR = 12.92`). -/
noncomputable def rgbToSrgb (value : ℝ) : ℝ :=
  if value ≤ 0.03928 then value / 12.92 else ((value + 0.055) / 1.055) ^ (2.4 : ℝ)

/-- Lab nonlinearity, from `ColorExtractor.xyzToLabStep`
(`THRESHOLD = 216/24389`, `FACTOR = 841/108`, `OFFSET = 4/29`). -/
noncomputable def xyzToLabStep (value : ℝ) : ℝ :=
  if 216 / 24389 < value then value ^ ((1 : ℝ) / 3) else (841 / 108) * value + 4 / 29

/-- XYZ to Lab, from `ColorExtractor.xyzToLab`
(white point `X = 0.95047, Y = 1, Z = 1.08883`). -/
noncomputable def xyzToLab (x y z : ℝ) : LabColor :=
  let fx := xyzToLabStep (x / 0.95047)
  let fy := xyzToLabStep (y / 1)
  let fz := xyzToLabStep (z / 1.08883)
  ⟨116 * fy - 16, 500 * (fx - fy), 200 * (fy - fz)⟩

/-- RGB → Lab conversion, from `ColorExtractor.convertToLab`.  The packed
color is a natural number; `>>> 16 &&& 255` models the JavaScript
`(color >> 16) & 255` (identical on `[0, 0xFFFFFF]`). -/
noncomputable def convertToLab (color : ℕ) : LabColor :=
  let r : ℕ := (color >>> 16) &&& 255
  let g : ℕ := (color >>> 8) &&& 255
  let b : ℕ := color &&& 255
  let sR := rgbToSrgb ((r : ℝ) / 255)
  let sG := rgbToSrgb ((g : ℝ) / 255)
  let sB := rgbToSrgb ((b : ℝ) / 255)
  let x := 0.4124564 * sR + 0.3575761 * sG + 0.1804375 * sB
  let y := 0.2126729 * sR + 0.7151522 * sG + 0.0721750 * sB
  let z := 0.0193339 * sR + 0.1191920 * sG + 0.9503041 * sB
  xyzToLab x y z

/-- Fast approximate Lab distance, from `ColorExtractor.calculateDeltaE`:
Euclidean distance with a short-circuit to `100` when `|ΔL| > 50`. -/
noncomputable def calculateDeltaE (lab1 lab2 : LabColor) : ℝ :=
  let deltaL := lab2.L - lab1.L
  let deltaA := lab2.a - lab1.a
  let deltaB := lab2.b - lab1.b
  if 50 < |deltaL| then 100
  else Real.sqrt (deltaL * deltaL + deltaA * deltaA + deltaB * deltaB)

/-- Plain Euclidean Lab distance: `calculateDeltaE` without the `|ΔL| > 50`
short-circuit (the comparison variant used in the C10 refinement claim). -/
noncomputable def calculateDeltaEPlain (lab1 lab2 : LabColor) : ℝ :=
  Real.sqrt ((lab2.L - lab1.L) * (lab2.L - lab1.L) + (lab2.a - lab1.a) * (lab2.a - lab1.a) +
    (lab2.b - lab1.b) * (lab2.b - lab1.b))

/-- Spatial grid bucket key, from `ColorExtractor.getGridKey`.  The source
builds the string `` `${lKey},${aKey},${bKey}` ``, which is in bijection
with the integer triple, so the key is modelled as the triple itself. -/
noncomputable def getGridKey (labColor : LabColor) (gridSize : ℝ) : ℤ × ℤ × ℤ :=
  (⌊labColor.L / gridSize⌋, ⌊(labColor.a + 128) / gridSize⌋, ⌊(labColor.b + 128) / gridSize⌋)

/-- State of the forward pass in `ColorExtractor.mergeColors`: the accepted
colors, their Lab coordinates, and the spatial grid (`Map` of bucket key to
list of result indices, modelled as a total function defaulting to `[]`,
matching `spatialGrid.get(gridKey) || []`). -/
structure MergeState where
  result : List ℕ
  labColors : List LabColor
  grid : ℤ × ℤ × ℤ → List ℕ

/-- The initial merge state: empty result, no Lab colors, empty grid. -/
def initMergeState : MergeState := ⟨[], [], fun _ => []⟩

/-- One iteration of the `for (const color of colors)` loop in
`ColorExtractor.mergeColors`.  `break` once the limit is reached is
modelled by skipping the remaining iterations unchanged. -/
noncomputable def mergeStep (maxDelta : ℝ) (actualLimit : ℕ) (st : MergeState) (color : ℕ) :
    MergeState :=
  if actualLimit ≤ st.result.length then st
  else
    let colorLab := convertToLab color
    let gridKey := getGridKey colorLab 20
    let nearby := st.grid gridKey
    if ∃ i ∈ nearby, calculateDeltaE colorLab (st.labColors.getD i ⟨0, 0, 0⟩) < maxDelta then st
    else
      { result := st.result ++ [color]
        labColors := st.labColors ++ [colorLab]
        grid := fun k => if k = gridKey then st.grid gridKey ++ [st.result.length] else st.grid k }

/-- Spatial merge pass, from `ColorExtractor.mergeColors` (grid size 20). -/
noncomputable def mergeColors (colors : List ℕ) (limit : ℕ) (maxDelta : ℝ) : List ℕ :=
  let actualLimit := min colors.length limit
  if actualLimit ≤ 1 then colors.take actualLimit
  else (colors.foldl (mergeStep maxDelta actualLimit) initMergeState).result

/-- `mergeStep` with the plain Euclidean distance instead of
`calculateDeltaE` (for the C10 refinement claim). -/
noncomputable def mergeStepPlain (maxDelta : ℝ) (actualLimit : ℕ) (st : MergeState) (color : ℕ) :
    MergeState :=
  if actualLimit ≤ st.result.length then st
  else
    let colorLab := convertToLab color
    let gridKey := getGridKey colorLab 20
    let nearby := st.grid gridKey
    if ∃ i ∈ nearby, calculateDeltaEPlain colorLab (st.labColors.getD i ⟨0, 0, 0⟩) < maxDelta then
      st
    else
      { result := st.result ++ [color]
        labColors := st.labColors ++ [colorLab]
        grid := fun k => if k = gridKey then st.grid gridKey ++ [st.result.length] else st.grid k }

/-- `mergeColors` with the plain Euclidean distance (for C10). -/
noncomputable def mergeColorsPlain (colors : List ℕ) (limit : ℕ) (maxDelta : ℝ) : List ℕ :=
  let actualLimit := min colors.length limit
  if actualLimit ≤ 1 then colors.take actualLimit
  else (colors.foldl (mergeStepPlain maxDelta actualLimit) initMergeState).result

/-- A color with its salience priority, from the anonymous records built in
`ColorExtractor.initialize`. -/
structure PriorityRecord where
  color : ℕ
  priority : ℝ

/-- Salience priority of one palette entry `(color, count)`, from the loop
body of `ColorExtractor.initialize`.  `Math.sqrt(a*a + b*b) || 1`
substitutes `1` exactly when the chroma is `0`. -/
noncomputable def priorityOf (entry : ℕ × ℕ) : PriorityRecord :=
  let labColor := convertToLab entry.1
  let chromaDistance :=
    if Real.sqrt (labColor.a * labColor.a + labColor.b * labColor.b) = 0 then 1
    else Real.sqrt (labColor.a * labColor.a + labColor.b * labColor.b)
  let lightnessWeight := 1 - labColor.L * 0.005
  let frequencyWeight := Real.sqrt (entry.2 : ℝ)
  ⟨entry.1, chromaDistance * lightnessWeight * frequencyWeight⟩

/-- The comparator `(a, b) => b.priority - a.priority` of
`ColorExtractor.initialize` orders `a` before `b` exactly when
`b.priority ≤ a.priority`; JavaScript `Array.prototype.sort` is a stable
sort, modelled by `List.mergeSort` with this relation. -/
noncomputable def priorityLE (a b : PriorityRecord) : Bool :=
  decide (b.priority ≤ a.priority)

/-- The cached salience ranking, from `ColorExtractor.initialize`: the
palette entries (in the palette's iteration order) mapped to priority
records, stably sorted by priority descending, then projected to colors.
The early `entries.length === 0` return coincides with the general code
path on the empty list. -/
noncomputable def rankColors (palette : List (ℕ × ℕ)) : List ℕ :=
  ((palette.map priorityOf).mergeSort priorityLE).map PriorityRecord.color

/-- The public extraction operation, from `ColorExtractor.extract`:
`colorCount = 0` short-circuits to `[]`; otherwise the ranked colors are
merged with `limit = colorCount` and `maxDelta = 100 / colorCount`. -/
noncomputable def extract (palette : List (ℕ × ℕ)) (colorCount : ℕ) : List ℕ :=
  if colorCount = 0 then []
  else mergeColors (rankColors palette) colorCount (100 / (colorCount : ℝ))

/-! ### The Lab conversion cache (`ColorExtractor.getLabColor`) -/

/-- Cached Lab lookup, from `ColorExtractor.getLabColor`: with caching
disabled it always recomputes; otherwise a hit returns the cached value
unchanged, and a miss clears the whole cache first when it has reached
`maxCacheSize`, then computes and appends the new entry (JavaScript `Map`
insertion order). -/
noncomputable def getLabColorC (useCache : Bool) (maxCacheSize : ℕ)
    (cache : List (ℕ × LabColor)) (color : ℕ) : LabColor × List (ℕ × LabColor) :=
  if useCache = false then (convertToLab color, cache)
  else
    match cache.find? (fun p => p.1 == color) with
    | some p => (p.2, cache)
    | none =>
      let cache1 := if maxCacheSize ≤ cache.length then [] else cache
      let labColor := convertToLab color
      (labColor, cache1 ++ [(color, labColor)])

/-- One iteration of the priority loop of `ColorExtractor.initialize`,
threading the Lab cache. -/
noncomputable def rankStepC (useCache : Bool) (maxCacheSize : ℕ)
    (acc : List PriorityRecord × List (ℕ × LabColor)) (entry : ℕ × ℕ) :
    List PriorityRecord × List (ℕ × LabColor) :=
  let r := getLabColorC useCache maxCacheSize acc.2 entry.1
  let labColor := r.1
  let chromaDistance :=
    if Real.sqrt (labColor.a * labColor.a + labColor.b * labColor.b) = 0 then 1
    else Real.sqrt (labColor.a * labColor.a + labColor.b * labColor.b)
  let lightnessWeight := 1 - labColor.L * 0.005
  let frequencyWeight := Real.sqrt (entry.2 : ℝ)
  (acc.1 ++ [⟨entry.1, chromaDistance * lightnessWeight * frequencyWeight⟩], r.2)

/-- `ColorExtractor.initialize` threading the Lab cache. -/
noncomputable def rankColorsC (useCache : Bool) (maxCacheSize : ℕ)
    (cache : List (ℕ × LabColor)) (palette : List (ℕ × ℕ)) :
    List ℕ × List (ℕ × LabColor) :=
  let r := palette.foldl (rankStepC useCache maxCacheSize) ([], cache)
  ((r.1.mergeSort priorityLE).map PriorityRecord.color, r.2)

/-- One iteration of the merge loop, threading the Lab cache (the `break`
when the result is full performs no conversion, so the cache is
unchanged). -/
noncomputable def mergeStepC (useCache : Bool) (maxCacheSize : ℕ) (maxDelta : ℝ)
    (actualLimit : ℕ) (acc : MergeState × List (ℕ × LabColor)) (color : ℕ) :
    MergeState × List (ℕ × LabColor) :=
  if actualLimit ≤ acc.1.result.length then acc
  else
    let r := getLabColorC useCache maxCacheSize acc.2 color
    let colorLab := r.1
    let gridKey := getGridKey colorLab 20
    let nearby := acc.1.grid gridKey
    if ∃ i ∈ nearby, calculateDeltaE colorLab (acc.1.labColors.getD i ⟨0, 0, 0⟩) < maxDelta then
      (acc.1, r.2)
    else
      ({ result := acc.1.result ++ [color]
         labColors := acc.1.labColors ++ [colorLab]
         grid := fun k =>
           if k = gridKey then acc.1.grid gridKey ++ [acc.1.result.length]
           else acc.1.grid k }, r.2)

/-- `ColorExtractor.mergeColors` threading the Lab cache. -/
noncomputable def mergeColorsC (useCache : Bool) (maxCacheSize : ℕ)
    (cache : List (ℕ × LabColor)) (colors : List ℕ) (limit : ℕ) (maxDelta : ℝ) :
    List ℕ × List (ℕ × LabColor) :=
  let actualLimit := min colors.length limit
  if actualLimit ≤ 1 then (colors.take actualLimit, cache)
  else
    let r := colors.foldl (mergeStepC useCache maxCacheSize maxDelta actualLimit)
      (initMergeState, cache)
    (r.1.result, r.2)

/-- Mutable per-instance state of a `ColorExtractor`: the Lab cache and the
lazily computed ranking (`sortedColors`). -/
structure ExtractorState where
  labCache : List (ℕ × LabColor)
  sortedColors : Option (List ℕ)

/-- `ColorExtractor.extract` as a state transformer on the instance state:
`colorCount = 0` returns immediately without touching the state; otherwise
the ranking is computed once and cached, and the merge pass runs with the
shared Lab cache. -/
noncomputable def extractC (useCache : Bool) (maxCacheSize : ℕ) (palette : List (ℕ × ℕ))
    (st : ExtractorState) (colorCount : ℕ) : List ℕ × ExtractorState :=
  if colorCount = 0 then ([], st)
  else
    let init := match st.sortedColors with
      | some sorted => (sorted, st.labCache)
      | none => rankColorsC useCache maxCacheSize st.labCache palette
    let r := mergeColorsC useCache maxCacheSize init.2 init.1 colorCount (100 / (colorCount : ℝ))
    (r.1, ⟨r.2, some init.1⟩)

/-- Every cache entry stores the Lab conversion of its key. -/
def CacheWF (cache : List (ℕ × LabColor)) : Prop :=
  ∀ p ∈ cache, p.2 = convertToLab p.1

/-- Instance-state invariant: the Lab cache is value-correct and the cached
ranking, when present, is the ranking of the instance's palette. -/
def ExtractorStateWF (palette : List (ℕ × ℕ)) (st : ExtractorState) : Prop :=
  CacheWF st.labCache ∧ ∀ sorted, st.sortedColors = some sorted → sorted = rankColors palette

/-! ### Well-formedness of the merge state -/

/-- Invariant of the forward pass: Lab coordinates mirror the accepted
colors, and the spatial grid holds exactly the accepted indices keyed by
their bucket. -/
def GridWF (st : MergeState) : Prop :=
  st.labColors.length = st.result.length ∧
  (∀ i, i < st.result.length →
    st.labColors.getD i ⟨0, 0, 0⟩ = convertToLab (st.result.getD i 0)) ∧
  (∀ k i, i ∈ st.grid k →
    i < st.result.length ∧ getGridKey (st.labColors.getD i ⟨0, 0, 0⟩) 20 = k) ∧
  (∀ i, i < st.result.length → i ∈ st.grid (getGridKey (st.labColors.getD i ⟨0, 0, 0⟩) 20))

/-! ### The spec-side Lab pipeline (for the C5 refinement claim) -/

/-- The reference RGB → Lab pipeline written from the specification text
(§4.1): unpack the R, G, B bytes of the 24-bit packed color, normalize to
`[0,1]`, apply the sRGB transfer function, the fixed sRGB D65 matrix, the
D65 white-point division and the Lab nonlinearity. -/
noncomputable def toLabSpec (color : ℕ) : LabColor :=
  let r : ℕ := color / 65536
  let g : ℕ := color / 256 % 256
  let b : ℕ := color % 256
  let linR := if ((r : ℝ) / 255) ≤ 0.03928 then ((r : ℝ) / 255) / 12.92
    else (((r : ℝ) / 255 + 0.055) / 1.055) ^ (2.4 : ℝ)
  let linG := if ((g : ℝ) / 255) ≤ 0.03928 then ((g : ℝ) / 255) / 12.92
    else (((g : ℝ) / 255 + 0.055) / 1.055) ^ (2.4 : ℝ)
  let linB := if ((b : ℝ) / 255) ≤ 0.03928 then ((b : ℝ) / 255) / 12.92
    else (((b : ℝ) / 255 + 0.055) / 1.055) ^ (2.4 : ℝ)
  let x := 0.4124564 * linR + 0.3575761 * linG + 0.1804375 * linB
  let y := 0.2126729 * linR + 0.7151522 * linG + 0.0721750 * linB
  let z := 0.0193339 * linR + 0.1191920 * linG + 0.9503041 * linB
  let step := fun t : ℝ =>
    if t > 216 / 24389 then t ^ ((1 : ℝ) / 3) else (841 / 108) * t + 4 / 29
  let fx := step (x / 0.95047)
  let fy := step (y / 1)
  let fz := step (z / 1.08883)
  ⟨116 * fy - 16, 500 * (fx - fy), 200 * (fy - fz)⟩

/-! ### The palette collaborator (`src/core/Palette.ts`) -/

/-- A palette entry, from `PaletteEntry` in `src/types/index.ts`. -/
structure PaletteEntry where
  color : ℕ
  count : ℕ
deriving DecidableEq

/-- The comparator `(a, b) => b.count - a.count` of
`Palette.getMostUsedColors` orders `a` before `b` exactly when
`b.count ≤ a.count`; the stable JavaScript sort is `List.mergeSort`. -/
def countLE (a b : PaletteEntry) : Bool :=
  decide (b.count ≤ a.count)

/-- The palette's entries sorted by count descending (stable), from the
first two lines of `Palette.getMostUsedColors`.  The palette's backing
`Map` is modelled as its entry list in insertion order. -/
def sortedByCount (colors : List (ℕ × ℕ)) : List PaletteEntry :=
  ((colors.map fun p => PaletteEntry.mk p.1 p.2).mergeSort countLE)

/-- `Palette.getMostUsedColors(limit?)`: `limit ? entries.slice(0, limit) :
entries` — the JavaScript truthiness test means both an omitted limit and
`limit = 0` return all entries. -/
def getMostUsedColors (colors : List (ℕ × ℕ)) (limit : Option ℕ) : List PaletteEntry :=
  let entries := sortedByCount colors
  match limit with
  | none => entries
  | some l => if l = 0 then entries else entries.take l

/-! ### The image decoder collaborator (`src/core/ImageDecoder.ts`) -/

/-- Raw image data, from `ImageData` in `src/types/index.ts` (the RGBA byte
buffer is modelled as a list of naturals). -/
structure ImageData where
  width : ℕ
  height : ℕ
  data : List ℕ
deriving DecidableEq

/-- `ImageDecoder.fromRawData`: rejects a buffer whose length is not
`width * height * 4`, otherwise returns the triple unchanged. -/
def fromRawData (width height : ℕ) (data : List ℕ) : Except String ImageData :=
  let expectedLength := width * height * 4
  if data.length ≠ expectedLength then
    Except.error ("Invalid data length: expected " ++ toString expectedLength ++
      ", got " ++ toString data.length)
  else Except.ok ⟨width, height, data⟩

/-! ## Helper lemmas -/

/-- `mergeSort` of a two-element list compares the pair once. -/
theorem mergeSort_pair {α : Type} (le : α → α → Bool) (a b : α) :
    [a, b].mergeSort le = if le a b then [a, b] else [b, a] := by
  rw [List.mergeSort]
  simp [List.splitInTwo, List.merge]

/-- The linear branch of the Lab nonlinearity. -/
theorem xyzToLabStep_linear (t : ℝ) (h : t ≤ 216 / 24389) :
    xyzToLabStep t = (841 / 108) * t + 4 / 29 := by
  rw [xyzToLabStep, if_neg (by linarith)]

theorem rgbToSrgb_zero : rgbToSrgb ((0 : ℝ)) = 0 := by
  rw [rgbToSrgb, if_pos (by norm_num)]
  norm_num

theorem rgbToSrgb_one_255 : rgbToSrgb ((1 : ℝ) / 255) = 5 / 16473 := by
  rw [rgbToSrgb, if_pos (by norm_num)]
  norm_num

/-- Lab coordinates of black (packed color 0). -/
theorem convertToLab_zero : convertToLab 0 = ⟨0, 0, 0⟩ := by
  norm_num [convertToLab, rgbToSrgb_zero]
  rw [xyzToLab]
  rw [xyzToLabStep_linear _ (by norm_num), xyzToLabStep_linear _ (by norm_num),
    xyzToLabStep_linear _ (by norm_num)]
  simp [LabColor.mk.injEq]
  norm_num

/-- Lab coordinates of the packed color 1 (R = 0, G = 0, B = 1): all
channels stay in the linear branches, so the result is rational. -/
theorem convertToLab_one :
    convertToLab 1 =
      ⟨70411043 / 3558168000, 4644700871 / 33401796928, -108609580057 / 286980745440⟩ := by
  have e1 : ((1 : ℕ) >>> 16 &&& 255) = 0 := by decide
  have e2 : ((1 : ℕ) >>> 8 &&& 255) = 0 := by decide
  have e3 : ((1 : ℕ) &&& 255) = 1 := by decide
  norm_num [convertToLab, e1, e2, e3, rgbToSrgb_zero, rgbToSrgb_one_255]
  rw [xyzToLab]
  rw [xyzToLabStep_linear _ (by norm_num), xyzToLabStep_linear _ (by norm_num),
    xyzToLabStep_linear _ (by norm_num)]
  simp only [LabColor.mk.injEq]
  norm_num

/-! ## C8: raw-data decoding -/

/-- C8: `ImageDecoder.fromRawData(width, height, data)` errors exactly when
`data.length ≠ width·height·4`, and otherwise returns the triple
`(width, height, data)` unchanged. -/
theorem fromRawData_ok_iff (width height : ℕ) (data : List ℕ) :
    (∀ e, fromRawData width height data = Except.error e →
      data.length ≠ width * height * 4) ∧
    (data.length ≠ width * height * 4 →
      ∃ e, fromRawData width height data = Except.error e) ∧
    (data.length = width * height * 4 →
      fromRawData width height data = Except.ok ⟨width, height, data⟩) := by
  refine ⟨?_, ?_, ?_⟩
  · intro e he hlen
    rw [fromRawData, if_neg (by simpa using hlen)] at he
    exact Except.noConfusion he
  · intro hlen
    exact ⟨_, by rw [fromRawData, if_pos (by simpa using hlen)]⟩
  · intro hlen
    rw [fromRawData, if_neg (by simpa using hlen)]

/-- Witness for C8 at a 1×1 image. -/
theorem fromRawData_ok_iff_witness :
    fromRawData 1 1 [7, 7, 7, 255] = Except.ok ⟨1, 1, [7, 7, 7, 255]⟩ ∧
    ∃ e, fromRawData 1 1 [7] = Except.error e :=
  ⟨(fromRawData_ok_iff 1 1 [7, 7, 7, 255]).2.2 (by decide),
   (fromRawData_ok_iff 1 1 [7]).2.1 (by decide)⟩

/-! ## C5: the Lab conversion matches the spec pipeline -/

/-- C5: for every packed color in `[0, 0xFFFFFF]`, the source conversion
`convertToLab` computes exactly the reference pipeline of spec §4.1
(byte unpack, sRGB transfer with threshold 0.03928, the fixed sRGB D65
matrix, white-point division, Lab nonlinearity with threshold 216/24389,
and `L = 116·fy − 16`, `a = 500·(fx − fy)`, `b = 200·(fy − fz)`). -/
theorem convertToLab_eq_toLabSpec (color : ℕ) (h : color ≤ 0xFFFFFF) :
    convertToLab color = toLabSpec color := by
  have h16 : (color >>> 16) &&& 255 = color / 65536 := by
    rw [Nat.shiftRight_eq_div_pow]
    have h1 : color / 2 ^ 16 &&& 2 ^ 8 - 1 = color / 2 ^ 16 % 2 ^ 8 :=
      Nat.and_pow_two_sub_one_eq_mod (color / 2 ^ 16) 8
    have h2 : color / 2 ^ 16 < 2 ^ 8 := by
      rw [Nat.div_lt_iff_lt_mul (by norm_num)]
      calc color ≤ 0xFFFFFF := h
        _ < 2 ^ 8 * 2 ^ 16 := by norm_num
    norm_num at h1 h2 ⊢
    rw [h1, Nat.mod_eq_of_lt h2]
  have h8 : (color >>> 8) &&& 255 = color / 256 % 256 := by
    rw [Nat.shiftRight_eq_div_pow]
    have h1 : color / 2 ^ 8 &&& 2 ^ 8 - 1 = color / 2 ^ 8 % 2 ^ 8 :=
      Nat.and_pow_two_sub_one_eq_mod (color / 2 ^ 8) 8
    norm_num at h1 ⊢
    exact h1
  have h0 : color &&& 255 = color % 256 := by
    have h1 : color &&& 2 ^ 8 - 1 = color % 2 ^ 8 :=
      Nat.and_pow_two_sub_one_eq_mod color 8
    norm_num at h1 ⊢
    exact h1
  rw [convertToLab, toLabSpec, h16, h8, h0]
  rfl

/-- Witness for C5 at color 0. -/
theorem convertToLab_eq_toLabSpec_witness :
    (0 : ℕ) ≤ 0xFFFFFF ∧ convertToLab 0 = toLabSpec 0 :=
  ⟨by decide, convertToLab_eq_toLabSpec 0 (by decide)⟩

/-! ## C9: the most-used-colors query -/

theorem countLE_trans (a b c : PaletteEntry) : countLE a b → countLE b c → countLE a c := by
  simp only [countLE, decide_eq_true_eq]
  omega

theorem countLE_total (a b : PaletteEntry) : countLE a b || countLE b a := by
  simp only [countLE, Bool.or_eq_true, decide_eq_true_eq]
  omega

/-- C9 counterexample: `getMostUsedColors(0)` returns all entries (the
JavaScript truthiness test `limit ? … : …` treats `0` like an omitted
limit), not the empty sequence the claim requires. -/
theorem getMostUsedColors_zero_ce :
    getMostUsedColors [(1, 5)] (some 0) = [⟨1, 5⟩] ∧
    getMostUsedColors [(1, 5)] (some 0) ≠ [] := by
  have h : getMostUsedColors [(1, 5)] (some 0) = [⟨1, 5⟩] := by
    simp [getMostUsedColors, sortedByCount]
  exact ⟨h, by rw [h]; simp⟩

/-- C9 (amended): the sorted entry list is a stable descending sort of the
palette entries by count — it is a permutation of the entries, sorted by
count descending, and entries with equal counts keep their relative
insertion order; `getMostUsedColors(K)` returns its first `K` entries for
`K ≥ 1` (all entries when `K` exceeds the palette length), while `K = 0`
and an omitted limit both return all entries. -/
theorem getMostUsedColors_spec (colors : List (ℕ × ℕ)) :
    (sortedByCount colors).Pairwise (fun a b => b.count ≤ a.count) ∧
    List.Perm (sortedByCount colors) (colors.map (fun p => PaletteEntry.mk p.1 p.2)) ∧
    (∀ a b : PaletteEntry, List.Sublist [a, b] (colors.map (fun p => PaletteEntry.mk p.1 p.2)) →
      a.count = b.count → List.Sublist [a, b] (sortedByCount colors)) ∧
    (∀ K, K ≠ 0 → getMostUsedColors colors (some K) = (sortedByCount colors).take K) ∧
    (∀ K, colors.length ≤ K → getMostUsedColors colors (some K) = sortedByCount colors) ∧
    getMostUsedColors colors (some 0) = sortedByCount colors ∧
    getMostUsedColors colors none = sortedByCount colors := by
  refine ⟨?_, ?_, ?_, ?_, ?_, ?_, ?_⟩
  · have h := List.sorted_mergeSort countLE_trans countLE_total
      (colors.map fun p => PaletteEntry.mk p.1 p.2)
    exact h.imp fun hab => by simpa [countLE] using hab
  · exact List.mergeSort_perm _ _
  · intro a b hsub heq
    exact List.pair_sublist_mergeSort countLE_trans countLE_total
      (by simp [countLE, heq]) hsub
  · intro K hK
    simp [getMostUsedColors, hK]
  · intro K hle
    rcases Nat.eq_zero_or_pos K with h0 | hpos
    · subst h0
      simp [getMostUsedColors]
    · rw [getMostUsedColors]
      simp only [Nat.pos_iff_ne_zero.mp hpos, if_neg (Nat.pos_iff_ne_zero.mp hpos)]
      apply List.take_of_length_le
      simpa [sortedByCount] using hle
  · simp [getMostUsedColors]
  · simp [getMostUsedColors]

/-- Witness for C9 (amended) on the palette `[(1,2), (2,2)]`. -/
theorem getMostUsedColors_spec_witness :
    List.Sublist ([⟨1, 2⟩, ⟨2, 2⟩] : List PaletteEntry) (sortedByCount [(1, 2), (2, 2)]) ∧
    getMostUsedColors [(1, 2), (2, 2)] (some 1) = (sortedByCount [(1, 2), (2, 2)]).take 1 ∧
    getMostUsedColors [(1, 2), (2, 2)] (some 5) = sortedByCount [(1, 2), (2, 2)] :=
  ⟨(getMostUsedColors_spec [(1, 2), (2, 2)]).2.2.1 ⟨1, 2⟩ ⟨2, 2⟩ (List.Sublist.refl _) rfl,
   (getMostUsedColors_spec [(1, 2), (2, 2)]).2.2.2.1 1 (by decide),
   (getMostUsedColors_spec [(1, 2), (2, 2)]).2.2.2.2.1 5 (by decide)⟩

/-! ## Basic properties of the merge pass -/

/-- One merge step either leaves the state unchanged or appends the
candidate color. -/
theorem mergeStep_result_cases (maxDelta : ℝ) (actualLimit : ℕ) (st : MergeState) (color : ℕ) :
    (mergeStep maxDelta actualLimit st color).result = st.result ∨
    ((mergeStep maxDelta actualLimit st color).result = st.result ++ [color] ∧
      st.result.length < actualLimit) := by
  rw [mergeStep]
  split
  · exact Or.inl rfl
  · next h =>
    dsimp only
    split
    · exact Or.inl rfl
    · exact Or.inr ⟨rfl, by omega⟩

theorem mergeStep_length_le (maxDelta : ℝ) (actualLimit : ℕ) (st : MergeState) (color : ℕ)
    (h : st.result.length ≤ actualLimit) :
    (mergeStep maxDelta actualLimit st color).result.length ≤ actualLimit := by
  rcases mergeStep_result_cases maxDelta actualLimit st color with hc | ⟨hc, hlt⟩ <;>
    simp [hc] <;> omega

theorem foldl_mergeStep_length_le (colors : List ℕ) (maxDelta : ℝ) (actualLimit : ℕ)
    (st : MergeState) (h : st.result.length ≤ actualLimit) :
    (colors.foldl (mergeStep maxDelta actualLimit) st).result.length ≤ actualLimit := by
  induction colors generalizing st with
  | nil => simpa using h
  | cons c cs ih =>
    exact ih _ (mergeStep_length_le maxDelta actualLimit st c h)

theorem foldl_mergeStep_mem (colors : List ℕ) (maxDelta : ℝ) (actualLimit : ℕ)
    (st : MergeState) :
    ∀ x ∈ (colors.foldl (mergeStep maxDelta actualLimit) st).result,
      x ∈ st.result ∨ x ∈ colors := by
  induction colors generalizing st with
  | nil => intro x hx; exact Or.inl (by simpa using hx)
  | cons c cs ih =>
    intro x hx
    rcases ih (mergeStep maxDelta actualLimit st c) x hx with hmem | hmem
    · rcases mergeStep_result_cases maxDelta actualLimit st c with hc | ⟨hc, -⟩
      · exact Or.inl (hc ▸ hmem)
      · rw [hc] at hmem
        rcases List.mem_append.mp hmem with hmem | hmem
        · exact Or.inl hmem
        · simp only [List.mem_singleton] at hmem
          exact Or.inr (by simp [hmem])
    · exact Or.inr (List.mem_cons_of_mem _ hmem)

/-- The merge pass returns at most `min |colors| limit` colors. -/
theorem mergeColors_length_le (colors : List ℕ) (limit : ℕ) (maxDelta : ℝ) :
    (mergeColors colors limit maxDelta).length ≤ min colors.length limit := by
  rw [mergeColors]
  split
  · simp only [List.length_take]
    omega
  · exact foldl_mergeStep_length_le colors maxDelta _ initMergeState (by simp [initMergeState])

/-- Every color returned by the merge pass comes from the input list. -/
theorem mergeColors_subset (colors : List ℕ) (limit : ℕ) (maxDelta : ℝ) :
    ∀ x ∈ mergeColors colors limit maxDelta, x ∈ colors := by
  rw [mergeColors]
  split
  · intro x hx
    exact List.mem_of_mem_take hx
  · intro x hx
    rcases foldl_mergeStep_mem colors maxDelta _ initMergeState x hx with h | h
    · simp [initMergeState] at h
    · exact h

theorem rankColors_length (palette : List (ℕ × ℕ)) :
    (rankColors palette).length = palette.length := by
  simp [rankColors]

theorem rankColors_mem (palette : List (ℕ × ℕ)) :
    ∀ c ∈ rankColors palette, c ∈ palette.map Prod.fst := by
  intro c hc
  simp only [rankColors, List.mem_map, List.mem_mergeSort] at hc
  obtain ⟨rec, hrec, hcolor⟩ := hc
  obtain ⟨p, hp, hrecp⟩ := hrec
  subst hrecp
  exact List.mem_map.mpr ⟨p, hp, hcolor⟩

/-! ## C1: extraction bounds -/

/-- C1: `extract` is a total function (never throws in the model); it
returns at most `min(colorCount, palette length)` colors, every returned
color is a key of the source palette, `extract(0)` is empty, and an empty
palette yields the empty sequence for every `colorCount`. -/
theorem extract_basic (palette : List (ℕ × ℕ)) (colorCount : ℕ) :
    (extract palette colorCount).length ≤ min colorCount palette.length ∧
    (∀ c ∈ extract palette colorCount, c ∈ palette.map Prod.fst) ∧
    extract palette 0 = [] ∧
    extract [] colorCount = [] := by
  refine ⟨?_, ?_, by simp [extract], ?_⟩
  · rw [extract]
    split
    · simp
    · have h := mergeColors_length_le (rankColors palette) colorCount (100 / (colorCount : ℝ))
      rw [rankColors_length] at h
      omega
  · rw [extract]
    split
    · simp
    · intro c hc
      exact rankColors_mem palette c
        (mergeColors_subset (rankColors palette) colorCount _ c hc)
  · rw [extract]
    split
    · rfl
    · have h := mergeColors_length_le (rankColors ([] : List (ℕ × ℕ))) colorCount
        (100 / (colorCount : ℝ))
      rw [rankColors_length] at h
      simp only [List.length_nil] at h
      exact List.length_eq_zero.mp (by omega)

/-! ## The grid invariant of the forward pass -/

theorem gridWF_init : GridWF initMergeState := by
  refine ⟨rfl, ?_, ?_, ?_⟩ <;> simp [initMergeState]

/-- `mergeStep` preserves the grid invariant. -/
theorem mergeStep_gridWF (maxDelta : ℝ) (lim : ℕ) (st : MergeState) (color : ℕ)
    (h : GridWF st) : GridWF (mergeStep maxDelta lim st color) := by
  obtain ⟨hlen, hlab, hgrid, hmem⟩ := h
  rw [mergeStep]
  split
  · exact ⟨hlen, hlab, hgrid, hmem⟩
  · dsimp only
    split
    · exact ⟨hlen, hlab, hgrid, hmem⟩
    · next hnot =>
      refine ⟨by simp [hlen], ?_, ?_, ?_⟩
      · intro i hi
        simp only [List.length_append, List.length_singleton] at hi
        rcases Nat.lt_or_ge i st.result.length with hlt | hge
        · rw [List.getD_append _ _ _ _ (by omega), List.getD_append _ _ _ _ hlt]
          exact hlab i hlt
        · have hieq : i = st.result.length := by omega
          subst hieq
          dsimp only
          rw [List.getD_append_right _ _ _ _ (by omega), List.getD_append_right _ _ _ _ (by omega)]
          simp [hlen]
      · intro k i him
        simp only at him
        by_cases hk : k = getGridKey (convertToLab color) 20
        · rw [if_pos hk] at him
          rcases List.mem_append.mp him with hold | hnew
          · obtain ⟨hbound, hkey⟩ := hgrid _ i hold
            refine ⟨by simp; omega, ?_⟩
            rw [List.getD_append _ _ _ _ (by omega)]
            rw [hkey, hk]
          · simp only [List.mem_singleton] at hnew
            subst hnew
            refine ⟨by simp, ?_⟩
            dsimp only
            rw [List.getD_append_right _ _ _ _ (by omega)]
            simp [hlen, hk]
        · rw [if_neg hk] at him
          obtain ⟨hbound, hkey⟩ := hgrid _ i him
          refine ⟨by simp; omega, ?_⟩
          rw [List.getD_append _ _ _ _ (by omega)]
          exact hkey
      · intro i hi
        simp only [List.length_append, List.length_singleton] at hi
        rcases Nat.lt_or_ge i st.result.length with hlt | hge
        · rw [List.getD_append _ _ _ _ (by omega)]
          simp only
          by_cases hk : getGridKey (st.labColors.getD i ⟨0, 0, 0⟩) 20 =
              getGridKey (convertToLab color) 20
          · rw [if_pos hk]
            exact List.mem_append_left _ (hk ▸ hmem i hlt)
          · rw [if_neg hk]
            exact hmem i hlt
        · have hieq : i = st.result.length := by omega
          subst hieq
          dsimp only
          rw [List.getD_append_right _ _ _ _ (by omega)]
          simp [hlen]

theorem foldl_mergeStep_gridWF (colors : List ℕ) (maxDelta : ℝ) (lim : ℕ) (st : MergeState)
    (h : GridWF st) : GridWF (colors.foldl (mergeStep maxDelta lim) st) := by
  induction colors generalizing st with
  | nil => exact h
  | cons c cs ih => exact ih _ (mergeStep_gridWF maxDelta lim st c h)

theorem pairwise_of_length_le_one {α : Type} {R : α → α → Prop} {l : List α}
    (h : l.length ≤ 1) : l.Pairwise R := by
  match l, h with
  | [], _ => exact List.Pairwise.nil
  | [a], _ => exact List.pairwise_singleton R a

/-- `mergeStep` preserves pairwise separation of the accepted colors. -/
theorem mergeStep_pairwise (maxDelta : ℝ) (lim : ℕ) (st : MergeState) (color : ℕ)
    (hwf : GridWF st)
    (hp : st.result.Pairwise (fun c1 c2 =>
      getGridKey (convertToLab c2) 20 = getGridKey (convertToLab c1) 20 →
        ¬ calculateDeltaE (convertToLab c2) (convertToLab c1) < maxDelta)) :
    (mergeStep maxDelta lim st color).result.Pairwise (fun c1 c2 =>
      getGridKey (convertToLab c2) 20 = getGridKey (convertToLab c1) 20 →
        ¬ calculateDeltaE (convertToLab c2) (convertToLab c1) < maxDelta) := by
  obtain ⟨hlen, hlab, hgrid, hmem⟩ := hwf
  rw [mergeStep]
  split
  · exact hp
  · dsimp only
    split
    · exact hp
    · next hnot =>
      dsimp only
      rw [List.pairwise_append]
      refine ⟨hp, List.pairwise_singleton _ _, ?_⟩
      intro a ha c hc
      simp only [List.mem_singleton] at hc
      subst hc
      intro hkey hclose
      obtain ⟨i, hi, hgetd⟩ := List.getElem_of_mem ha
      have hgd : st.result.getD i 0 = a := by
        rw [List.getD_eq_getElem _ _ hi, hgetd]
      have hlabi : st.labColors.getD i ⟨0, 0, 0⟩ = convertToLab a := by
        rw [hlab i hi, hgd]
      apply hnot
      refine ⟨i, ?_, ?_⟩
      · have := hmem i hi
        rw [hlabi, ← hkey] at this
        exact this
      · rw [hlabi]
        exact hclose

theorem foldl_mergeStep_pairwise (colors : List ℕ) (maxDelta : ℝ) (lim : ℕ) (st : MergeState)
    (hwf : GridWF st)
    (hp : st.result.Pairwise (fun c1 c2 =>
      getGridKey (convertToLab c2) 20 = getGridKey (convertToLab c1) 20 →
        ¬ calculateDeltaE (convertToLab c2) (convertToLab c1) < maxDelta)) :
    ((colors.foldl (mergeStep maxDelta lim) st).result).Pairwise (fun c1 c2 =>
      getGridKey (convertToLab c2) 20 = getGridKey (convertToLab c1) 20 →
        ¬ calculateDeltaE (convertToLab c2) (convertToLab c1) < maxDelta) := by
  induction colors generalizing st with
  | nil => exact hp
  | cons c cs ih =>
    exact ih _ (mergeStep_gridWF maxDelta lim st c ⟨hwf.1, hwf.2.1, hwf.2.2.1, hwf.2.2.2⟩)
      (mergeStep_pairwise maxDelta lim st c hwf hp)

/-! ## C2: the separation invariant of the merge pass -/

/-- C2: at every step of the forward pass, and in the final sequence, no
two distinct accepted colors that share a grid bucket key (grid size 20)
are at computed `calculateDeltaE` distance strictly below `maxDelta`;
the distance is computed as the code does, with the later-accepted color
as the first argument. -/
theorem mergeColors_separation (colors : List ℕ) (limit : ℕ) (maxDelta : ℝ) :
    (∀ n : ℕ, (((colors.take n).foldl (mergeStep maxDelta (min colors.length limit))
        initMergeState).result).Pairwise (fun c1 c2 =>
      getGridKey (convertToLab c2) 20 = getGridKey (convertToLab c1) 20 →
        ¬ calculateDeltaE (convertToLab c2) (convertToLab c1) < maxDelta)) ∧
    (mergeColors colors limit maxDelta).Pairwise (fun c1 c2 =>
      getGridKey (convertToLab c2) 20 = getGridKey (convertToLab c1) 20 →
        ¬ calculateDeltaE (convertToLab c2) (convertToLab c1) < maxDelta) := by
  constructor
  · intro n
    exact foldl_mergeStep_pairwise _ _ _ _ gridWF_init (by simp [initMergeState])
  · rw [mergeColors]
    split
    · next h =>
      apply pairwise_of_length_le_one
      simp only [List.length_take]
      omega
    · exact foldl_mergeStep_pairwise _ _ _ _ gridWF_init (by simp [initMergeState])

/-! ## C10: the lightness short-circuit is unreachable inside a bucket -/

/-- Equal lightness bucket components force `|ΔL| < 20 ≤ 50`, so the
short-circuit branch of `calculateDeltaE` cannot fire. -/
theorem deltaE_eq_plain_of_floor_eq (lab1 lab2 : LabColor)
    (h : ⌊lab1.L / 20⌋ = ⌊lab2.L / 20⌋) :
    calculateDeltaE lab1 lab2 = calculateDeltaEPlain lab1 lab2 := by
  have h1 := Int.floor_le (lab1.L / 20)
  have h2 := Int.lt_floor_add_one (lab1.L / 20)
  have h3 := Int.floor_le (lab2.L / 20)
  have h4 := Int.lt_floor_add_one (lab2.L / 20)
  rw [h] at h1 h2
  have habs : ¬ 50 < |lab2.L - lab1.L| := by
    rw [not_lt, abs_le]
    constructor <;> linarith
  simp only [calculateDeltaE, calculateDeltaEPlain]
  rw [if_neg habs]

/-- With a well-formed grid, one merge step with `calculateDeltaE` equals
one merge step with the plain Euclidean distance: every compared pair
shares a bucket, hence shares a lightness bucket. -/
theorem mergeStep_eq_plain (maxDelta : ℝ) (lim : ℕ) (st : MergeState) (color : ℕ)
    (hwf : GridWF st) :
    mergeStep maxDelta lim st color = mergeStepPlain maxDelta lim st color := by
  obtain ⟨hlen, hlab, hgrid, hmem⟩ := hwf
  rw [mergeStep, mergeStepPlain]
  by_cases hfull : lim ≤ st.result.length
  · rw [if_pos hfull, if_pos hfull]
  · rw [if_neg hfull, if_neg hfull]
    dsimp only
    have hiff : (∃ i ∈ st.grid (getGridKey (convertToLab color) 20),
        calculateDeltaE (convertToLab color) (st.labColors.getD i ⟨0, 0, 0⟩) < maxDelta) ↔
        ∃ i ∈ st.grid (getGridKey (convertToLab color) 20),
        calculateDeltaEPlain (convertToLab color) (st.labColors.getD i ⟨0, 0, 0⟩) < maxDelta := by
      apply exists_congr
      intro i
      by_cases hi : i ∈ st.grid (getGridKey (convertToLab color) 20)
      · have hkey := (hgrid _ i hi).2
        have hfloor : ⌊(convertToLab color).L / 20⌋ =
            ⌊(st.labColors.getD i ⟨0, 0, 0⟩).L / 20⌋ := by
          have := congrArg Prod.fst hkey
          simpa [getGridKey] using this.symm
        rw [deltaE_eq_plain_of_floor_eq _ _ hfloor]
      · constructor <;> (rintro ⟨hmemi, -⟩; exact absurd hmemi hi)
    rw [if_congr hiff rfl rfl]

theorem foldl_mergeStep_eq_plain (colors : List ℕ) (maxDelta : ℝ) (lim : ℕ) (st : MergeState)
    (hwf : GridWF st) :
    colors.foldl (mergeStep maxDelta lim) st = colors.foldl (mergeStepPlain maxDelta lim) st := by
  induction colors generalizing st with
  | nil => rfl
  | cons c cs ih =>
    simp only [List.foldl_cons]
    rw [← mergeStep_eq_plain maxDelta lim st c hwf]
    exact ih _ (mergeStep_gridWF maxDelta lim st c hwf)

/-- C10: inside the merge pass distances are only computed between Lab
colors in the same grid bucket, where equal lightness buckets keep
`|ΔL| < 20 ≤ 50`, so the `|ΔL| > 50` short-circuit of `calculateDeltaE` is
unreachable: `calculateDeltaE` agrees with the plain Euclidean distance on
every pair with equal lightness bucket keys, and `mergeColors` is
extensionally equal to its plain-Euclidean variant. -/
theorem mergeColors_eq_plain (colors : List ℕ) (limit : ℕ) (maxDelta : ℝ) :
    (∀ lab1 lab2 : LabColor, (getGridKey lab1 20).1 = (getGridKey lab2 20).1 →
      calculateDeltaE lab1 lab2 = calculateDeltaEPlain lab1 lab2) ∧
    mergeColors colors limit maxDelta = mergeColorsPlain colors limit maxDelta := by
  constructor
  · intro lab1 lab2 h
    exact deltaE_eq_plain_of_floor_eq lab1 lab2 (by simpa [getGridKey] using h)
  · rw [mergeColors, mergeColorsPlain]
    by_cases hlim : min colors.length limit ≤ 1
    · rw [if_pos hlim, if_pos hlim]
    · rw [if_neg hlim, if_neg hlim]
      rw [foldl_mergeStep_eq_plain colors maxDelta _ initMergeState gridWF_init]

/-! ## C3: the merge threshold and the drop condition -/

/-- C3: `extract(colorCount)` with `colorCount ≥ 1` merges with threshold
exactly `maxDelta = 100 / colorCount`; while the result has room, a
candidate is dropped (the merge step leaves the state unchanged) if and
only if some already-accepted color in the same grid bucket has computed
distance strictly below `maxDelta`; consequently a pair at distance exactly
`maxDelta` is not merged — the candidate is still appended. -/
theorem extract_threshold_drop_iff (palette : List (ℕ × ℕ)) (colorCount : ℕ)
    (maxDelta : ℝ) (lim : ℕ) (st : MergeState) (color : ℕ) :
    (colorCount ≠ 0 →
      extract palette colorCount =
        mergeColors (rankColors palette) colorCount (100 / (colorCount : ℝ))) ∧
    (GridWF st → st.result.length < lim →
      (mergeStep maxDelta lim st color = st ↔
        ∃ i, i < st.result.length ∧
          getGridKey (convertToLab (st.result.getD i 0)) 20 =
            getGridKey (convertToLab color) 20 ∧
          calculateDeltaE (convertToLab color) (convertToLab (st.result.getD i 0)) < maxDelta)) ∧
    (GridWF st → st.result.length < lim →
      (∀ i, i < st.result.length →
        ¬ calculateDeltaE (convertToLab color) (convertToLab (st.result.getD i 0)) < maxDelta) →
      (mergeStep maxDelta lim st color).result = st.result ++ [color]) := by
  refine ⟨?_, ?_, ?_⟩
  · intro h
    rw [extract, if_neg h]
  · rintro ⟨hlen, hlab, hgrid, hmem⟩ hroom
    rw [mergeStep, if_neg (by omega)]
    dsimp only
    by_cases hex : ∃ i ∈ st.grid (getGridKey (convertToLab color) 20),
        calculateDeltaE (convertToLab color) (st.labColors.getD i ⟨0, 0, 0⟩) < maxDelta
    · rw [if_pos hex]
      simp only [true_iff]
      obtain ⟨i, hi, hclose⟩ := hex
      obtain ⟨hbound, hkey⟩ := hgrid _ i hi
      have hlabi : st.labColors.getD i ⟨0, 0, 0⟩ = convertToLab (st.result.getD i 0) :=
        hlab i hbound
      refine ⟨i, hbound, ?_, ?_⟩
      · rw [← hlabi, hkey]
      · rw [← hlabi]
        exact hclose
    · rw [if_neg hex]
      constructor
      · intro heq
        have := congrArg (fun s => s.result.length) heq
        simp at this
      · rintro ⟨i, hi, hkey, hclose⟩
        exact absurd ⟨i, by rw [← hkey]; exact (hlab i hi) ▸ hmem i hi,
          by rw [hlab i hi]; exact hclose⟩ hex
  · rintro ⟨hlen, hlab, hgrid, hmem⟩ hroom hfar
    rw [mergeStep, if_neg (by omega)]
    dsimp only
    rw [if_neg ?_]
    rintro ⟨i, hi, hclose⟩
    obtain ⟨hbound, hkey⟩ := hgrid _ i hi
    exact hfar i hbound (by rw [← hlab i hbound]; exact hclose)

/-! ## C4: requesting more colors than the palette has -/

/-- A merge step with room left and a same-bucket color strictly below the
threshold leaves the state unchanged (the candidate is dropped). -/
theorem mergeStep_drop (maxDelta : ℝ) (lim : ℕ) (st : MergeState) (color : ℕ)
    (hroom : st.result.length < lim)
    (hex : ∃ i ∈ st.grid (getGridKey (convertToLab color) 20),
      calculateDeltaE (convertToLab color) (st.labColors.getD i ⟨0, 0, 0⟩) < maxDelta) :
    mergeStep maxDelta lim st color = st := by
  rw [mergeStep, if_neg (by omega)]
  dsimp only
  rw [if_pos hex]

/-- A merge step with room left and no same-bucket color strictly below the
threshold accepts the candidate. -/
theorem mergeStep_accept (maxDelta : ℝ) (lim : ℕ) (st : MergeState) (color : ℕ)
    (hroom : st.result.length < lim)
    (hex : ¬ ∃ i ∈ st.grid (getGridKey (convertToLab color) 20),
      calculateDeltaE (convertToLab color) (st.labColors.getD i ⟨0, 0, 0⟩) < maxDelta) :
    mergeStep maxDelta lim st color =
      ⟨st.result ++ [color], st.labColors ++ [convertToLab color],
        fun k => if k = getGridKey (convertToLab color) 20
          then st.grid (getGridKey (convertToLab color) 20) ++ [st.result.length]
          else st.grid k⟩ := by
  rw [mergeStep, if_neg (by omega)]
  dsimp only
  rw [if_neg hex]

/-- When the remaining colors fit under the limit, none of them was already
accepted, and no two distinct colors of the pool are strictly below the
threshold within a shared bucket, the fold accepts every remaining color. -/
theorem foldl_mergeStep_all_kept (suf : List ℕ) (maxDelta : ℝ) (lim : ℕ) (st : MergeState)
    (hwf : GridWF st)
    (hfit : st.result.length + suf.length ≤ lim)
    (hnd : (st.result ++ suf).Nodup)
    (hfar : ∀ c1 ∈ st.result ++ suf, ∀ c2 ∈ st.result ++ suf, c1 ≠ c2 →
      getGridKey (convertToLab c1) 20 = getGridKey (convertToLab c2) 20 →
      ¬ calculateDeltaE (convertToLab c2) (convertToLab c1) < maxDelta) :
    (suf.foldl (mergeStep maxDelta lim) st).result = st.result ++ suf := by
  induction suf generalizing st with
  | nil => simp
  | cons c cs ih =>
    obtain ⟨hlen, hlab, hgrid, hmem⟩ := hwf
    have hroom : st.result.length < lim := by
      simp only [List.length_cons] at hfit
      omega
    have hcnotin : c ∉ st.result := by
      rcases List.nodup_append.mp hnd with ⟨-, -, hdisj⟩
      intro hc
      exact hdisj hc (List.mem_cons_self c cs)
    have hnomerge : ¬ ∃ i ∈ st.grid (getGridKey (convertToLab c) 20),
        calculateDeltaE (convertToLab c) (st.labColors.getD i ⟨0, 0, 0⟩) < maxDelta := by
      rintro ⟨i, hi, hclose⟩
      obtain ⟨hbound, hkey⟩ := hgrid _ i hi
      have hlabi := hlab i hbound
      have hamem : st.result.getD i 0 ∈ st.result := by
        rw [List.getD_eq_getElem _ _ hbound]
        exact List.getElem_mem hbound
      have hane : st.result.getD i 0 ≠ c := fun h => hcnotin (h ▸ hamem)
      refine hfar (st.result.getD i 0) (List.mem_append_left _ hamem) c
        (List.mem_append_right _ (List.mem_cons_self c cs)) hane ?_ ?_
      · rw [hlabi] at hkey
        exact hkey
      · rw [← hlabi]
        exact hclose
    have hwf' := mergeStep_gridWF maxDelta lim st c ⟨hlen, hlab, hgrid, hmem⟩
    have hres' : (mergeStep maxDelta lim st c).result = st.result ++ [c] := by
      rw [mergeStep_accept maxDelta lim st c hroom hnomerge]
    rw [List.foldl_cons]
    rw [ih (mergeStep maxDelta lim st c) hwf' ?_ ?_ ?_, hres', List.append_assoc,
      List.singleton_append]
    · rw [hres', List.length_append, List.length_singleton]
      simp only [List.length_cons] at hfit
      omega
    · rw [hres', List.append_assoc, List.singleton_append]
      exact hnd
    · rw [hres', List.append_assoc, List.singleton_append]
      exact hfar

/-- A nodup input with no close same-bucket pair fits entirely into the
result when the limit allows. -/
theorem mergeColors_all_kept (colors : List ℕ) (limit : ℕ) (maxDelta : ℝ)
    (hnd : colors.Nodup) (hle : colors.length ≤ limit)
    (hfar : ∀ c1 ∈ colors, ∀ c2 ∈ colors, c1 ≠ c2 →
      getGridKey (convertToLab c1) 20 = getGridKey (convertToLab c2) 20 →
      ¬ calculateDeltaE (convertToLab c2) (convertToLab c1) < maxDelta) :
    mergeColors colors limit maxDelta = colors := by
  rw [mergeColors]
  have hmin : min colors.length limit = colors.length := by omega
  rw [hmin]
  split
  · simp
  · have h := foldl_mergeStep_all_kept colors maxDelta colors.length initMergeState
      gridWF_init (by simp [initMergeState]) (by simpa [initMergeState] using hnd)
      (by simpa [initMergeState] using hfar)
    simpa [initMergeState] using h

/-- The ranking is a permutation of the palette's colors. -/
theorem rankColors_perm (palette : List (ℕ × ℕ)) :
    List.Perm (rankColors palette) (palette.map Prod.fst) := by
  rw [rankColors]
  have h1 : List.Perm ((palette.map priorityOf).mergeSort priorityLE) (palette.map priorityOf) :=
    List.mergeSort_perm _ _
  have h2 := h1.map PriorityRecord.color
  rw [List.map_map] at h2
  have h3 : palette.map (PriorityRecord.color ∘ priorityOf) = palette.map Prod.fst :=
    List.map_congr_left fun p _ => rfl
  rw [h3] at h2
  exact h2

/-- C4 (amended): when `colorCount` exceeds the number of unique palette
colors AND no two distinct palette colors fall in the same grid bucket at
distance strictly below `100 / colorCount`, `extract` returns exactly the
unique color count many colors.  (The counterexample shows the claim fails
without the separation hypothesis: close colors merge even when more
colors were requested than exist.) -/
theorem extract_count_of_separated (palette : List (ℕ × ℕ)) (colorCount : ℕ)
    (hnd : (palette.map Prod.fst).Nodup)
    (hgt : palette.length < colorCount)
    (hfar : ∀ c1 ∈ palette.map Prod.fst, ∀ c2 ∈ palette.map Prod.fst, c1 ≠ c2 →
      getGridKey (convertToLab c1) 20 = getGridKey (convertToLab c2) 20 →
      ¬ calculateDeltaE (convertToLab c2) (convertToLab c1) < 100 / (colorCount : ℝ)) :
    (extract palette colorCount).length = palette.length := by
  have hk : colorCount ≠ 0 := by omega
  rw [extract, if_neg hk]
  have hperm := rankColors_perm palette
  have hnd' : (rankColors palette).Nodup := hperm.nodup_iff.mpr hnd
  have hfar' : ∀ c1 ∈ rankColors palette, ∀ c2 ∈ rankColors palette, c1 ≠ c2 →
      getGridKey (convertToLab c1) 20 = getGridKey (convertToLab c2) 20 →
      ¬ calculateDeltaE (convertToLab c2) (convertToLab c1) < 100 / (colorCount : ℝ) := by
    intro c1 h1 c2 h2
    exact hfar c1 (hperm.mem_iff.mp h1) c2 (hperm.mem_iff.mp h2)
  rw [mergeColors_all_kept _ _ _ hnd' (by rw [rankColors_length]; omega) hfar']
  exact rankColors_length palette

/-- Witness for C4 (amended) on a single-color palette with `colorCount = 2`. -/
theorem extract_count_of_separated_witness :
    (extract [(0, 1)] 2).length = 1 :=
  extract_count_of_separated [(0, 1)] 2 (by decide) (by decide) (by simp)

theorem gridKey_lab_zero : getGridKey ⟨0, 0, 0⟩ 20 = (0, 6, 6) := by
  simp only [getGridKey, Prod.mk.injEq]
  refine ⟨?_, ?_, ?_⟩ <;> (rw [Int.floor_eq_iff]; norm_num)

theorem gridKey_lab_one :
    getGridKey ⟨70411043 / 3558168000, 4644700871 / 33401796928,
      -108609580057 / 286980745440⟩ 20 = (0, 6, 6) := by
  simp only [getGridKey, Prod.mk.injEq]
  refine ⟨?_, ?_, ?_⟩ <;> (rw [Int.floor_eq_iff]; norm_num)

theorem deltaE_one_zero_lt :
    calculateDeltaE ⟨70411043 / 3558168000, 4644700871 / 33401796928,
      -108609580057 / 286980745440⟩ ⟨0, 0, 0⟩ < 100 / 3 := by
  simp only [calculateDeltaE]
  rw [if_neg ?_]
  · rw [Real.sqrt_lt' (by norm_num)]
    norm_num
  · rw [not_lt, abs_le]
    constructor <;> norm_num

theorem priorityOf_zero : priorityOf (0, 1) = ⟨0, 1⟩ := by
  simp only [priorityOf, convertToLab_zero]
  norm_num

theorem priority_one_le_one : (priorityOf (1, 1)).priority ≤ (priorityOf (0, 1)).priority := by
  rw [priorityOf_zero]
  simp only [priorityOf, convertToLab_one]
  rw [if_neg (Real.sqrt_ne_zero'.mpr (by norm_num))]
  rw [Nat.cast_one, Real.sqrt_one, mul_one]
  apply mul_le_one₀
  · rw [show (1 : ℝ) = Real.sqrt 1 by rw [Real.sqrt_one]]
    exact Real.sqrt_le_sqrt (by norm_num)
  · norm_num
  · norm_num

theorem rankColors_ce : rankColors [(0, 1), (1, 1)] = [0, 1] := by
  have hple : priorityLE (priorityOf (0, 1)) (priorityOf (1, 1)) = true := by
    rw [priorityLE, decide_eq_true_eq]
    exact priority_one_le_one
  rw [rankColors]
  rw [show ([((0 : ℕ), (1 : ℕ)), (1, 1)] : List (ℕ × ℕ)).map priorityOf =
    [priorityOf (0, 1), priorityOf (1, 1)] from rfl]
  rw [mergeSort_pair, if_pos hple]
  rfl

theorem hkey_one_zero :
    getGridKey (convertToLab 1) 20 = getGridKey (convertToLab 0) 20 := by
  rw [convertToLab_zero, convertToLab_one, gridKey_lab_zero, gridKey_lab_one]

theorem mergeColors_ce : mergeColors [0, 1] 3 (100 / 3) = [0] := by
  have hstep1 : mergeStep (100 / 3) 2 initMergeState 0 =
      ⟨[0], [convertToLab 0], fun k => if k = getGridKey (convertToLab 0) 20 then [0] else []⟩ := by
    rw [mergeStep_accept _ _ _ _ (by simp [initMergeState]) (by simp [initMergeState])]
    simp [initMergeState]
  have hstep2 : mergeStep (100 / 3) 2
      ⟨[0], [convertToLab 0], fun k => if k = getGridKey (convertToLab 0) 20 then [0] else []⟩ 1 =
      ⟨[0], [convertToLab 0], fun k => if k = getGridKey (convertToLab 0) 20 then [0] else []⟩ := by
    apply mergeStep_drop
    · simp
    · refine ⟨0, ?_, ?_⟩
      · dsimp only
        rw [if_pos hkey_one_zero]
        simp
      · dsimp only
        rw [List.getD_cons_zero, convertToLab_one, convertToLab_zero]
        exact deltaE_one_zero_lt
  rw [mergeColors]
  norm_num
  rw [hstep1, hstep2]

/-- C4 counterexample: the palette has the two distinct colors `0x000000`
and `0x000001` and `extract(3)` is called with `3 > 2` unique colors, yet
only one color is returned: the two dark colors share a grid bucket and
their Lab distance is below `100 / 3`, so the second is merged away. -/
theorem extract_more_than_unique_ce :
    ([((0 : ℕ), (1 : ℕ)), (1, 1)] : List (ℕ × ℕ)).length = 2 ∧ (2 : ℕ) < 3 ∧
    extract [(0, 1), (1, 1)] 3 = [0] ∧ (extract [(0, 1), (1, 1)] 3).length ≠ 2 := by
  have hfinal : extract [(0, 1), (1, 1)] 3 = [0] := by
    rw [extract, if_neg (by norm_num), rankColors_ce]
    rw [show ((3 : ℕ) : ℝ) = 3 by norm_num]
    exact mergeColors_ce
  exact ⟨rfl, by norm_num, hfinal, by rw [hfinal]; simp⟩

/-! ## C6: the salience ranking -/

theorem priorityLE_trans (a b c : PriorityRecord) :
    priorityLE a b → priorityLE b c → priorityLE a c := by
  simp only [priorityLE, decide_eq_true_eq]
  exact fun h1 h2 => le_trans h2 h1

theorem priorityLE_total (a b : PriorityRecord) : priorityLE a b || priorityLE b a := by
  simp only [priorityLE, Bool.or_eq_true, decide_eq_true_eq]
  exact le_total _ _

/-- C6: each palette entry's priority is `chroma' × (1 − L·0.005) ×
sqrt(count)` where `chroma' = sqrt(a² + b²)` with an exact zero replaced by
`1`; the cached ranking is the priority records sorted by priority
descending with a stable sort (records with equal priorities keep the
palette's iteration order), projected to their colors — a permutation of
the palette's colors — and the empty palette yields the empty ranking. -/
theorem rankColors_spec (palette : List (ℕ × ℕ)) :
    rankColors [] = ([] : List ℕ) ∧
    List.Perm (rankColors palette) (palette.map Prod.fst) ∧
    rankColors palette = ((palette.map priorityOf).mergeSort priorityLE).map
      PriorityRecord.color ∧
    ((palette.map priorityOf).mergeSort priorityLE).Pairwise
      (fun r1 r2 => r2.priority ≤ r1.priority) ∧
    (∀ entry : ℕ × ℕ, (priorityOf entry).color = entry.1 ∧
      (priorityOf entry).priority =
        (if Real.sqrt ((convertToLab entry.1).a ^ 2 + (convertToLab entry.1).b ^ 2) = 0 then 1
          else Real.sqrt ((convertToLab entry.1).a ^ 2 + (convertToLab entry.1).b ^ 2)) *
        (1 - (convertToLab entry.1).L * 0.005) * Real.sqrt (entry.2 : ℝ)) ∧
    (∀ r1 r2 : PriorityRecord, List.Sublist [r1, r2] (palette.map priorityOf) →
      r1.priority = r2.priority →
      List.Sublist [r1, r2] ((palette.map priorityOf).mergeSort priorityLE)) := by
  refine ⟨by simp [rankColors], rankColors_perm palette, rfl, ?_, ?_, ?_⟩
  · have h := List.sorted_mergeSort priorityLE_trans priorityLE_total (palette.map priorityOf)
    exact h.imp fun hab => by simpa [priorityLE] using hab
  · intro entry
    refine ⟨rfl, ?_⟩
    simp only [priorityOf, pow_two]
  · intro r1 r2 hsub heq
    exact List.pair_sublist_mergeSort priorityLE_trans priorityLE_total
      (by simp [priorityLE, heq]) hsub

/-! ## C7: the conversion cache never changes the result -/

/-- A value-correct cache makes `getLabColor` return exactly
`convertToLab`, and keeps the cache value-correct. -/
theorem getLabColorC_spec (useCache : Bool) (maxCacheSize : ℕ)
    (cache : List (ℕ × LabColor)) (color : ℕ) (h : CacheWF cache) :
    (getLabColorC useCache maxCacheSize cache color).1 = convertToLab color ∧
    CacheWF (getLabColorC useCache maxCacheSize cache color).2 := by
  rw [getLabColorC]
  by_cases hu : useCache = false
  · rw [if_pos hu]
    exact ⟨rfl, h⟩
  · rw [if_neg hu]
    cases hfind : cache.find? (fun p => p.1 == color) with
    | none =>
      dsimp only
      refine ⟨rfl, ?_⟩
      intro p hp
      rcases List.mem_append.mp hp with hp1 | hp2
      · split at hp1
        · exact absurd hp1 (List.not_mem_nil p)
        · exact h p hp1
      · simp only [List.mem_singleton] at hp2
        subst hp2
        rfl
    | some p =>
      dsimp only
      have hmem := List.mem_of_find?_eq_some hfind
      have hpeq : p.1 = color := by
        have := List.find?_some hfind
        simpa using this
      refine ⟨?_, h⟩
      rw [h p hmem, hpeq]

theorem rankStepC_eq (useCache : Bool) (maxCacheSize : ℕ)
    (acc : List PriorityRecord × List (ℕ × LabColor)) (entry : ℕ × ℕ) (h : CacheWF acc.2) :
    rankStepC useCache maxCacheSize acc entry =
      (acc.1 ++ [priorityOf entry], (getLabColorC useCache maxCacheSize acc.2 entry.1).2) := by
  obtain ⟨hfst, -⟩ := getLabColorC_spec useCache maxCacheSize acc.2 entry.1 h
  rw [rankStepC]
  rw [hfst]
  rfl

theorem foldl_rankStepC (palette : List (ℕ × ℕ)) (useCache : Bool) (maxCacheSize : ℕ)
    (acc : List PriorityRecord) (cache : List (ℕ × LabColor)) (h : CacheWF cache) :
    (palette.foldl (rankStepC useCache maxCacheSize) (acc, cache)).1 =
      acc ++ palette.map priorityOf ∧
    CacheWF (palette.foldl (rankStepC useCache maxCacheSize) (acc, cache)).2 := by
  induction palette generalizing acc cache with
  | nil => exact ⟨by simp, h⟩
  | cons e es ih =>
    rw [List.foldl_cons]
    rw [rankStepC_eq useCache maxCacheSize (acc, cache) e h]
    obtain ⟨ih1, ih2⟩ := ih (acc ++ [priorityOf e])
      (getLabColorC useCache maxCacheSize cache e.1).2
      (getLabColorC_spec useCache maxCacheSize cache e.1 h).2
    refine ⟨?_, ih2⟩
    rw [ih1]
    simp

theorem rankColorsC_spec (useCache : Bool) (maxCacheSize : ℕ)
    (cache : List (ℕ × LabColor)) (palette : List (ℕ × ℕ)) (h : CacheWF cache) :
    (rankColorsC useCache maxCacheSize cache palette).1 = rankColors palette ∧
    CacheWF (rankColorsC useCache maxCacheSize cache palette).2 := by
  rw [rankColorsC, rankColors]
  obtain ⟨h1, h2⟩ := foldl_rankStepC palette useCache maxCacheSize [] cache h
  dsimp only
  refine ⟨?_, h2⟩
  rw [h1]
  simp

theorem mergeStepC_eq (useCache : Bool) (maxCacheSize : ℕ) (maxDelta : ℝ) (lim : ℕ)
    (acc : MergeState × List (ℕ × LabColor)) (color : ℕ) (h : CacheWF acc.2) :
    mergeStepC useCache maxCacheSize maxDelta lim acc color =
      (mergeStep maxDelta lim acc.1 color,
        if lim ≤ acc.1.result.length then acc.2
        else (getLabColorC useCache maxCacheSize acc.2 color).2) := by
  obtain ⟨hfst, -⟩ := getLabColorC_spec useCache maxCacheSize acc.2 color h
  rw [mergeStepC, mergeStep]
  by_cases hfull : lim ≤ acc.1.result.length
  · rw [if_pos hfull, if_pos hfull, if_pos hfull]
  · rw [if_neg hfull, if_neg hfull, if_neg hfull]
    dsimp only
    rw [hfst]
    by_cases hex : ∃ i ∈ acc.1.grid (getGridKey (convertToLab color) 20),
        calculateDeltaE (convertToLab color) (acc.1.labColors.getD i ⟨0, 0, 0⟩) < maxDelta
    · rw [if_pos hex, if_pos hex]
    · rw [if_neg hex, if_neg hex]

theorem foldl_mergeStepC (colors : List ℕ) (useCache : Bool) (maxCacheSize : ℕ)
    (maxDelta : ℝ) (lim : ℕ) (st : MergeState) (cache : List (ℕ × LabColor))
    (h : CacheWF cache) :
    (colors.foldl (mergeStepC useCache maxCacheSize maxDelta lim) (st, cache)).1 =
      colors.foldl (mergeStep maxDelta lim) st ∧
    CacheWF (colors.foldl (mergeStepC useCache maxCacheSize maxDelta lim) (st, cache)).2 := by
  induction colors generalizing st cache with
  | nil => exact ⟨rfl, h⟩
  | cons c cs ih =>
    rw [List.foldl_cons, List.foldl_cons]
    rw [mergeStepC_eq useCache maxCacheSize maxDelta lim (st, cache) c h]
    apply ih
    split
    · exact h
    · exact (getLabColorC_spec useCache maxCacheSize cache c h).2

theorem mergeColorsC_spec (useCache : Bool) (maxCacheSize : ℕ)
    (cache : List (ℕ × LabColor)) (colors : List ℕ) (limit : ℕ) (maxDelta : ℝ)
    (h : CacheWF cache) :
    (mergeColorsC useCache maxCacheSize cache colors limit maxDelta).1 =
      mergeColors colors limit maxDelta ∧
    CacheWF (mergeColorsC useCache maxCacheSize cache colors limit maxDelta).2 := by
  rw [mergeColorsC, mergeColors]
  by_cases hlim : min colors.length limit ≤ 1
  · rw [if_pos hlim, if_pos hlim]
    exact ⟨rfl, h⟩
  · rw [if_neg hlim, if_neg hlim]
    dsimp only
    obtain ⟨h1, h2⟩ := foldl_mergeStepC colors useCache maxCacheSize maxDelta
      (min colors.length limit) initMergeState cache h
    exact ⟨by rw [h1], h2⟩

/-- C7: the observable output of `extract` is independent of the Lab
conversion cache and of the cached ranking: on any well-formed instance
state (in particular a fresh one), with caching enabled or disabled and
for any `maxCacheSize`, the stateful `extract` returns exactly the pure
`extract`, and the instance state stays well-formed — so repeated calls
with the same `colorCount` return identical sequences. -/
theorem extractC_pure (useCache : Bool) (maxCacheSize : ℕ) (palette : List (ℕ × ℕ))
    (st : ExtractorState) (colorCount : ℕ) (h : ExtractorStateWF palette st) :
    (extractC useCache maxCacheSize palette st colorCount).1 = extract palette colorCount ∧
    ExtractorStateWF palette (extractC useCache maxCacheSize palette st colorCount).2 := by
  obtain ⟨hcache, hsorted⟩ := h
  rw [extractC, extract]
  by_cases hk : colorCount = 0
  · rw [if_pos hk, if_pos hk]
    exact ⟨rfl, hcache, hsorted⟩
  · rw [if_neg hk, if_neg hk]
    dsimp only
    rcases hss : st.sortedColors with _ | sorted
    · simp only [hss]
      obtain ⟨h1, h2⟩ := rankColorsC_spec useCache maxCacheSize st.labCache palette hcache
      obtain ⟨m1, m2⟩ := mergeColorsC_spec useCache maxCacheSize
        (rankColorsC useCache maxCacheSize st.labCache palette).2
        (rankColorsC useCache maxCacheSize st.labCache palette).1 colorCount
        (100 / (colorCount : ℝ)) h2
      refine ⟨?_, m2, ?_⟩
      · rw [m1, h1]
      · intro s hs
        simp only [Option.some.injEq] at hs
        rw [← hs, h1]
    · simp only [hss]
      have heq : sorted = rankColors palette := hsorted sorted hss
      obtain ⟨m1, m2⟩ := mergeColorsC_spec useCache maxCacheSize st.labCache sorted
        colorCount (100 / (colorCount : ℝ)) hcache
      refine ⟨?_, m2, ?_⟩
      · rw [m1, heq]
      · intro s hs
        simp only [Option.some.injEq] at hs
        rw [← hs, heq]

/-- Witness for C7 on a fresh instance (empty cache, no cached ranking). -/
theorem extractC_pure_witness :
    (extractC true 10000 [(0, 1)] ⟨[], none⟩ 0).1 = extract [(0, 1)] 0 :=
  (extractC_pure true 10000 [(0, 1)] ⟨[], none⟩ 0
    ⟨fun p hp => absurd hp (List.not_mem_nil p), fun s hs => Option.noConfusion hs⟩).1
